import Mathlib

/-!
# Verification of the mcp-cli concurrent orchestration core

Shallow embedding of the core of the `mcp-cli` TypeScript sources:

* `src/client.ts` — the transient-error classifier `isTransientError` and the
  retry engine `withRetry`;
* `src/cache.ts` — the versioned, TTL-gated on-disk tool-list cache
  (`getCachedToolList` / `setCachedToolList`);
* `src/commands/list.ts` and `src/commands/grep.ts` — the bounded worker pool
  `processWithConcurrency`, the per-server units `fetchServerTools` /
  `searchServerTools`, and the aggregation/rendering tails of the two commands.

Pure functions are translated directly; effectful code (time, the file system,
the scheduler of the cooperative event loop) is made explicit: time is a
counter threaded through the retry engine, the cache's file system is a map
from sanitized file names to records, and the worker pool is a small-step
transition system driven by an arbitrary scheduler word.
-/

namespace McpCli

/-! ## Error values

A JavaScript `Error` as far as `isTransientError` inspects it: an optional
`code` property (`NodeJS.ErrnoException`) and a `message` string.  JS
truthiness of `code` is modelled explicitly (`undefined` and `""` are falsy).
-/

structure JsError where
  code : Option String
  message : String
deriving DecidableEq

/-! ## The transient-error classifier (`isTransientError`, src/client.ts)

The six regular expressions of the source are each compiled by hand into an
executable matcher over `List Char`.  JS `\w` (hence `\b`) on ASCII input is
`[A-Za-z0-9_]`; JS `\s` is modelled by the six ASCII whitespace characters
(the exotic Unicode spaces that JS `\s` additionally accepts play no role in
any claim).  Case-insensitive (`i`-flagged) regexes act on the ASCII-lowercased
message, exactly as `String.prototype.toLowerCase` would on ASCII input.
-/

def isWordChar (c : Char) : Bool :=
  ('a' ≤ c && c ≤ 'z') || ('A' ≤ c && c ≤ 'Z') || ('0' ≤ c && c ≤ '9') || c = '_'

def isSpaceChar (c : Char) : Bool :=
  c = ' ' || c = '\t' || c = '\n' || c = '\r' || c = '\x0b' || c = '\x0c'

/-- Match a literal character sequence, returning the unconsumed rest. -/
def matchLit : List Char → List Char → Option (List Char)
  | [], rest => some rest
  | _ :: _, [] => none
  | p :: ps, c :: cs => if p = c then matchLit ps cs else none

/-- Greedily consume `\s*`. -/
def skipSpaces : List Char → List Char
  | [] => []
  | c :: cs => if isSpaceChar c then skipSpaces cs else c :: cs

/-- Greedily consume `\s+` (at least one whitespace character). -/
def matchSpaces1 : List Char → Option (List Char)
  | [] => none
  | c :: cs => if isSpaceChar c then some (skipSpaces cs) else none

/-- A `\b` word boundary to the right of the matched text. -/
def boundaryAfter : List Char → Bool
  | [] => true
  | c :: _ => !isWordChar c

/-- A `\b` word boundary to the left, given the character preceding the
current position (`none` at the start of the string). -/
def boundaryBefore : Option Char → Bool
  | none => true
  | some c => !isWordChar c

/-- The HTTP status tokens `502|503|504|429` of the source's regexes. -/
def statusTokens : List (List Char) :=
  [['5', '0', '2'], ['5', '0', '3'], ['5', '0', '4'], ['4', '2', '9']]

/-- Match one of the status tokens followed by a `\b` boundary. -/
def statusThenBoundary (l : List Char) : Bool :=
  statusTokens.any fun s =>
    match matchLit s l with
    | some rest => boundaryAfter rest
    | none => false

/-- `/^(502|503|504|429)\b/` — status token anchored at the start. -/
def startsWithHttpStatus (m : List Char) : Bool :=
  statusThenBoundary m

/-- `/\b(http|status(\s+code)?)\s*(502|503|504|429)\b/i` tried at one
position; the `||` alternatives reproduce the regex's backtracking. -/
def tryHttpContextAt (prev : Option Char) (rest : List Char) : Bool :=
  boundaryBefore prev &&
  ((match matchLit ("http".toList) rest with
    | some r => statusThenBoundary (skipSpaces r)
    | none => false)
   ||
   (match matchLit ("status".toList) rest with
    | some r =>
      (match matchSpaces1 r with
       | some r2 =>
         match matchLit ("code".toList) r2 with
         | some r3 => statusThenBoundary (skipSpaces r3)
         | none => false
       | none => false)
      || statusThenBoundary (skipSpaces r)
    | none => false))

/-- The canonical phrases of the third HTTP regex, lowercased. -/
def statusPhrases : List (List Char) :=
  [("bad gateway".toList), ("service unavailable".toList),
   ("gateway timeout".toList), ("too many requests".toList)]

/-- `/\b(502|503|504|429)\s+(bad gateway|service unavailable|gateway timeout|too many requests)/i`
tried at one position. -/
def tryStatusPhraseAt (prev : Option Char) (rest : List Char) : Bool :=
  boundaryBefore prev &&
  statusTokens.any fun s =>
    match matchLit s rest with
    | some r =>
      match matchSpaces1 r with
      | some r2 => statusPhrases.any fun p => (matchLit p r2).isSome
      | none => false
    | none => false

/-- `/network\s*(error|fail|unavailable|timeout)/i` tried at one position.
Note the source regex has no `\b`: this is a plain substring search. -/
def tryNetworkAt (_prev : Option Char) (rest : List Char) : Bool :=
  match matchLit ("network".toList) rest with
  | some r =>
    [("error".toList), ("fail".toList), ("unavailable".toList), ("timeout".toList)].any
      fun w => (matchLit w (skipSpaces r)).isSome
  | none => false

/-- `/connection\s*(reset|refused|timeout)/i` tried at one position (again no
word boundary in the source regex). -/
def tryConnectionAt (_prev : Option Char) (rest : List Char) : Bool :=
  match matchLit ("connection".toList) rest with
  | some r =>
    [("reset".toList), ("refused".toList), ("timeout".toList)].any
      fun w => (matchLit w (skipSpaces r)).isSome
  | none => false

/-- `/\btimeout\b/i` tried at one position. -/
def tryTimeoutAt (prev : Option Char) (rest : List Char) : Bool :=
  boundaryBefore prev &&
  (match matchLit ("timeout".toList) rest with
   | some r => boundaryAfter r
   | none => false)

/-- Unanchored regex search: try the position matcher at every suffix,
remembering the preceding character for `\b` tests. -/
def searchFrom (tryAt : Option Char → List Char → Bool) :
    Option Char → List Char → Bool
  | prev, [] => tryAt prev []
  | prev, c :: cs => tryAt prev (c :: cs) || searchFrom tryAt (some c) cs

/-- The recognized low-level fault codes (`transientCodes` in src/client.ts). -/
def transientCodes : List String :=
  ["ECONNREFUSED", "ECONNRESET", "ETIMEDOUT", "ENOTFOUND", "EPIPE",
   "ENETUNREACH", "EHOSTUNREACH", "EAI_AGAIN"]

/-- `if (nodeError.code) { ... transientCodes.includes(...) }` — a falsy
(absent or empty) code skips the code check. -/
def codeIsTransient : Option String → Bool
  | none => false
  | some c => decide (c ≠ "") && transientCodes.contains c

/-- The message-matching fallback of `isTransientError`: the six regex tests,
in source order. -/
def isTransientMessage (msg : String) : Bool :=
  let m := msg.toList
  let lm := m.map Char.toLower
  startsWithHttpStatus m
  || searchFrom tryHttpContextAt none lm
  || searchFrom tryStatusPhraseAt none lm
  || searchFrom tryNetworkAt none lm
  || searchFrom tryConnectionAt none lm
  || searchFrom tryTimeoutAt none lm

/-- `isTransientError` (src/client.ts): code check first (only ever returns
`true` there), then message matching. -/
def isTransientError (e : JsError) : Bool :=
  codeIsTransient e.code || isTransientMessage e.message

end McpCli

namespace McpCli

/-- C7: for errors carrying no fault code, `isTransientError` accepts the
three transient example messages and rejects the three non-transient ones. -/
theorem isTransientError_examples :
    isTransientError ⟨none, "503 Service Unavailable"⟩ = true
    ∧ isTransientError ⟨none, "connection refused"⟩ = true
    ∧ isTransientError ⟨none, "request timeout"⟩ = true
    ∧ isTransientError ⟨none, "Invalid JSON"⟩ = false
    ∧ isTransientError ⟨none, "Error at line 502 in file"⟩ = false
    ∧ isTransientError ⟨none, "social network tool failed"⟩ = false := by
  decide

/-- C8 counterexample: the claim's own example message `"internetwork error"`
contains `network` only inside the larger word `internetwork`, carries no
fault code and no other transient indicator, yet `isTransientError` classifies
it as transient — the `/network\s*(error|fail|unavailable|timeout)/i` regex of
the source has no word boundary and matches the embedded substring. -/
theorem isTransientError_internetwork_cex :
    isTransientError ⟨none, "internetwork error"⟩ = true := by
  decide

/-- C8 (amended): `isTransientError`'s message matching is word-boundary-aware
only for the HTTP status tokens and the standalone word `timeout`; the
`network …`/`connection …` phrase patterns are plain substring matches.  Hence
`"internetwork error"` (embedded `network` followed by a phrase completion) is
classified transient, while messages embedding `network` inside a larger word
without a phrase completion, and embedded occurrences of `timeout` or of a
status token, are not. -/
theorem isTransientError_word_boundaries :
    isTransientError ⟨none, "internetwork error"⟩ = true
    ∧ isTransientError ⟨none, "internetworking issue"⟩ = false
    ∧ isTransientError ⟨none, "the internetworked system crashed"⟩ = false
    ∧ isTransientError ⟨none, "mytimeout"⟩ = false
    ∧ isTransientError ⟨none, "Port 5029 is in use"⟩ = false := by
  decide

end McpCli

namespace McpCli

/-! ## The retry engine (`withRetry`, src/client.ts)

`withRetry` loops over `attempt = 0 .. maxRetries`, checking the elapsed
wall-clock time against `totalBudgetMs` before each attempt, invoking the
wrapped operation, and on failure either sleeping and retrying (transient
error, attempts and at least one second of budget remaining) or rethrowing.

The effects are made explicit:
* the operation is an oracle `fn : Nat → Except JsError α` giving the outcome
  of its `k`-th invocation;
* time is a clock (milliseconds since the recorded start) advanced by an
  oracle `fnTime k` during the `k`-th invocation and by the computed delay
  during a sleep;
* `calculateDelay` — `Math.round` of `min(baseDelayMs * 2^attempt, maxDelayMs)`
  with ±25% `Math.random` jitter, floating-point arithmetic the claims never
  depend on — is abstracted as an oracle `jitteredDelay : Nat → Nat`; the
  source's `Math.min(calculateDelay(...), remainingBudget - 1000)` cap is kept.

The trace records the returned or thrown value (`Except.error none` models JS
`throw lastError` with `lastError` still `undefined`), the number of
invocations of the operation, and the number of sleeps. -/

structure RetryConfig where
  maxRetries : Nat
  baseDelayMs : Nat
  maxDelayMs : Nat
  totalBudgetMs : Nat
deriving DecidableEq

/-- `getRetryConfig` (src/client.ts): derives `maxDelayMs` from the budget,
reserving 5s for the final attempt.  (`retryBudgetMs / 2` is JS float
division; the integer division here is inessential — no claim touches
`maxDelayMs`.) -/
def getRetryConfig (totalBudgetMs maxRetries baseDelayMs : Nat) : RetryConfig :=
  let retryBudgetMs := totalBudgetMs - 5000
  ⟨maxRetries, baseDelayMs, min 10000 (retryBudgetMs / 2), totalBudgetMs⟩

structure RetryTrace (α : Type) where
  result : Except (Option JsError) α
  invocations : Nat
  sleeps : Nat

/-- The body of `withRetry`'s `for` loop, fuelled by the number of remaining
allowed attempts (`fuel = maxRetries + 1 - attempt`).  Exhausted fuel is the
loop running off its upper bound, followed by `throw lastError`. -/
def withRetryGo (fn : Nat → Except JsError α) (fnTime jitteredDelay : Nat → Nat)
    (cfg : RetryConfig) :
    Nat → Nat → Nat → Option JsError → Nat → Nat → RetryTrace α
  | 0, _, _, lastError, invs, slps => ⟨Except.error lastError, invs, slps⟩
  | fuel + 1, attempt, clock, lastError, invs, slps =>
    if cfg.totalBudgetMs ≤ clock then
      ⟨Except.error lastError, invs, slps⟩
    else
      match fn attempt with
      | Except.ok a => ⟨Except.ok a, invs + 1, slps⟩
      | Except.error e =>
        let clock2 := clock + fnTime attempt
        if attempt < cfg.maxRetries ∧ isTransientError e = true
            ∧ clock2 + 1000 < cfg.totalBudgetMs then
          let delay := min (jitteredDelay attempt) (cfg.totalBudgetMs - clock2 - 1000)
          withRetryGo fn fnTime jitteredDelay cfg fuel (attempt + 1)
            (clock2 + delay) (some e) (invs + 1) (slps + 1)
        else
          ⟨Except.error (some e), invs + 1, slps⟩

/-- `withRetry` (src/client.ts): run the loop from attempt 0 with a fresh
clock and no captured error. -/
def withRetry (fn : Nat → Except JsError α) (fnTime jitteredDelay : Nat → Nat)
    (cfg : RetryConfig) : RetryTrace α :=
  withRetryGo fn fnTime jitteredDelay cfg (cfg.maxRetries + 1) 0 0 none 0 0

theorem withRetryGo_invocations_le (fn : Nat → Except JsError α)
    (fnTime jitteredDelay : Nat → Nat) (cfg : RetryConfig) :
    ∀ fuel attempt clock lastError invs slps,
      (withRetryGo fn fnTime jitteredDelay cfg fuel attempt clock lastError
        invs slps).invocations ≤ invs + fuel := by
  intro fuel
  induction fuel with
  | zero => intro attempt clock lastError invs slps; simp [withRetryGo]
  | succ fuel ih =>
    intro attempt clock lastError invs slps
    unfold withRetryGo
    split
    · simp
    · cases hfn : fn attempt with
      | ok a => simp
      | error e =>
        dsimp only
        by_cases hr : attempt < cfg.maxRetries ∧ isTransientError e = true
            ∧ clock + fnTime attempt + 1000 < cfg.totalBudgetMs
        · rw [if_pos hr]
          exact le_trans (ih _ _ _ _ _) (by omega)
        · rw [if_neg hr]
          simp

/-- C3: `withRetry` with `maxRetries = R` invokes the operation at most
`R + 1` times (any oracles, any configuration); with `maxRetries = 0` and a
positive time budget (every configuration produced by `getRetryConfig` has
one) it invokes the operation exactly once and, if that single invocation
fails, rethrows that very error without sleeping or retrying. -/
theorem withRetry_termination (fn : Nat → Except JsError α)
    (fnTime jitteredDelay : Nat → Nat) (cfg : RetryConfig) :
    (withRetry fn fnTime jitteredDelay cfg).invocations ≤ cfg.maxRetries + 1
    ∧ (cfg.maxRetries = 0 → 0 < cfg.totalBudgetMs →
        (withRetry fn fnTime jitteredDelay cfg).invocations = 1
        ∧ (withRetry fn fnTime jitteredDelay cfg).sleeps = 0
        ∧ ∀ e, fn 0 = Except.error e →
            (withRetry fn fnTime jitteredDelay cfg).result
              = Except.error (some e)) := by
  constructor
  · have h := withRetryGo_invocations_le fn fnTime jitteredDelay cfg
      (cfg.maxRetries + 1) 0 0 none 0 0
    simpa [withRetry] using h
  · intro h0 hb
    unfold withRetry
    rw [h0]
    unfold withRetryGo
    rw [if_neg (by omega)]
    cases hfn : fn 0 with
    | ok a =>
      refine ⟨rfl, rfl, ?_⟩
      intro e he
      exact Except.noConfusion he
    | error e =>
      dsimp only
      rw [if_neg (by simp [h0])]
      refine ⟨rfl, rfl, ?_⟩
      intro e' he'
      injection he' with h1
      subst h1
      rfl

/-- C4: if every invocation of the wrapped operation fails with an error that
`isTransientError` classifies as not transient, `withRetry` performs exactly
one invocation and rethrows that first error, for every `maxRetries` value. -/
theorem withRetry_nontransient_short_circuit (fn : Nat → Except JsError α)
    (fnTime jitteredDelay : Nat → Nat) (cfg : RetryConfig)
    (hfail : ∀ k, ∃ e, fn k = Except.error e ∧ isTransientError e = false)
    (hb : 0 < cfg.totalBudgetMs) :
    (withRetry fn fnTime jitteredDelay cfg).invocations = 1
    ∧ ∀ e, fn 0 = Except.error e →
        (withRetry fn fnTime jitteredDelay cfg).result
          = Except.error (some e) := by
  obtain ⟨e, he, hnt⟩ := hfail 0
  unfold withRetry
  unfold withRetryGo
  rw [if_neg (by omega)]
  rw [he]
  dsimp only
  rw [if_neg (by simp [hnt])]
  refine ⟨rfl, ?_⟩
  intro e' he'
  injection he' with h1
  subst h1
  rfl

/-- The non-transient test error shared by the retry-engine witnesses. -/
def invalidJsonError : JsError := ⟨none, "Invalid JSON"⟩

/-- Witness for C3 at a concrete input: `maxRetries = 0`, default budget, an
operation that always fails non-transiently. -/
theorem withRetry_termination_witness :
    (withRetry (fun _ => (Except.error invalidJsonError : Except JsError Nat))
        (fun _ => 0) (fun _ => 0) ⟨0, 1000, 10000, 1800000⟩).invocations = 1
    ∧ (withRetry (fun _ => (Except.error invalidJsonError : Except JsError Nat))
        (fun _ => 0) (fun _ => 0) ⟨0, 1000, 10000, 1800000⟩).sleeps = 0
    ∧ (withRetry (fun _ => (Except.error invalidJsonError : Except JsError Nat))
        (fun _ => 0) (fun _ => 0) ⟨0, 1000, 10000, 1800000⟩).result
        = Except.error (some invalidJsonError) := by
  have h := (withRetry_termination
    (fun _ => (Except.error invalidJsonError : Except JsError Nat))
    (fun _ => 0) (fun _ => 0) ⟨0, 1000, 10000, 1800000⟩).2 rfl (by decide)
  exact ⟨h.1, h.2.1, h.2.2 invalidJsonError rfl⟩

/-- Witness for C4 at a concrete input: `maxRetries = 3`, default budget, an
operation that always fails with a non-transient error. -/
theorem withRetry_nontransient_witness :
    (withRetry (fun _ => (Except.error invalidJsonError : Except JsError Nat))
        (fun _ => 0) (fun _ => 0) ⟨3, 1000, 10000, 1800000⟩).invocations = 1
    ∧ (withRetry (fun _ => (Except.error invalidJsonError : Except JsError Nat))
        (fun _ => 0) (fun _ => 0) ⟨3, 1000, 10000, 1800000⟩).result
        = Except.error (some invalidJsonError) := by
  have h := withRetry_nontransient_short_circuit
    (fun _ => (Except.error invalidJsonError : Except JsError Nat))
    (fun _ => 0) (fun _ => 0) ⟨3, 1000, 10000, 1800000⟩
    (fun _ => ⟨invalidJsonError, rfl, by decide⟩) (by decide)
  exact ⟨h.1, h.2 invalidJsonError rfl⟩

end McpCli

namespace McpCli

/-! ## The tool-list cache (src/cache.ts)

One JSON file per server under the cache directory, keyed by the sanitized
server name.  The file system is a map from file names to records; a file
whose contents `JSON.parse` rejects is `CacheFile.corrupt` (serialization of
a well-formed record round-trips, so a successfully parsed record is the
record itself).  The ambient effects of `Date.now()`, `getCacheTTLMs()` and
`isCacheDisabled()` are gathered in `CacheEnv`.  `Date.now()` and the stored
`timestamp` are JS numbers, so the age `now - timestamp` is computed in `ℤ`
(a future-dated entry has negative age and is not expired). -/

/-- `ToolInfo` (src/client.ts); `inputSchema` is an arbitrary JSON-like
document, kept as a type parameter `J`. -/
structure ToolInfo (J : Type) where
  name : String
  description : Option String
  inputSchema : J
deriving DecidableEq

/-- `CachedToolList` (src/cache.ts), the persisted record shape. -/
structure CachedToolList (J : Type) where
  serverName : String
  tools : List (ToolInfo J)
  timestamp : Nat
  version : Nat
deriving DecidableEq

/-- A persisted cache file: either a parseable record or corrupt bytes. -/
inductive CacheFile (J : Type)
  | valid (entry : CachedToolList J)
  | corrupt
deriving DecidableEq

def CACHE_VERSION : Nat := 1

/-- The per-character action of `serverName.replace(/[^a-z0-9_-]/gi, '_')`. -/
def sanitizeChar (c : Char) : Char :=
  if ('a' ≤ c && c ≤ 'z') || ('A' ≤ c && c ≤ 'Z') || ('0' ≤ c && c ≤ '9')
      || c = '_' || c = '-' then c
  else '_'

/-- `getCacheFilePath` (src/cache.ts): sanitized name plus `.json` (the
constant cache-directory prefix is dropped from the key). -/
def getCacheFilePath (serverName : String) : String :=
  String.mk (serverName.toList.map sanitizeChar) ++ ".json"

/-- The ambient configuration and clock read by the cache operations. -/
structure CacheEnv where
  noCache : Bool
  ttlMs : Nat
  now : Nat

/-- The cache directory: file name to contents. -/
structure CacheStore (J : Type) where
  files : String → Option (CacheFile J)

/-- `getCachedToolList` (src/cache.ts).  Every failure mode — caching
disabled, missing file, unparseable file, version mismatch, expiry — returns
`none`; the surrounding `try`/`catch` of the source means no case raises. -/
def getCachedToolList (env : CacheEnv) (store : CacheStore J)
    (serverName : String) : Option (List (ToolInfo J)) :=
  if env.noCache then none
  else
    match store.files (getCacheFilePath serverName) with
    | none => none
    | some CacheFile.corrupt => none
    | some (CacheFile.valid cached) =>
      if cached.version ≠ CACHE_VERSION then none
      else if (env.ttlMs : Int) < (env.now : Int) - (cached.timestamp : Int) then none
      else some cached.tools

/-- `setCachedToolList` (src/cache.ts): no-op when caching is disabled,
otherwise overwrite the server's file with a fresh record stamped `now` and
the current format version. -/
def setCachedToolList (env : CacheEnv) (store : CacheStore J)
    (serverName : String) (tools : List (ToolInfo J)) : CacheStore J :=
  if env.noCache then store
  else
    ⟨fun p =>
      if p = getCacheFilePath serverName then
        some (CacheFile.valid ⟨serverName, tools, env.now, CACHE_VERSION⟩)
      else store.files p⟩

/-- C5: `getCachedToolList` returns `none` when caching is disabled, when no
entry exists, when the entry is corrupt (parse failure), when its format
version mismatches, or when its age exceeds the TTL — and returns the stored
tools for a present, parseable, version-matching, unexpired entry.  (It never
raises: by construction its only outcomes are `none` and `some`.) -/
theorem getCachedToolList_silent_miss (env : CacheEnv) (store : CacheStore J)
    (name : String) :
    (env.noCache = true → getCachedToolList env store name = none)
    ∧ (store.files (getCacheFilePath name) = none →
        getCachedToolList env store name = none)
    ∧ (store.files (getCacheFilePath name) = some CacheFile.corrupt →
        getCachedToolList env store name = none)
    ∧ (∀ entry, store.files (getCacheFilePath name) = some (CacheFile.valid entry) →
        entry.version ≠ CACHE_VERSION →
        getCachedToolList env store name = none)
    ∧ (∀ entry, store.files (getCacheFilePath name) = some (CacheFile.valid entry) →
        (env.ttlMs : Int) < (env.now : Int) - (entry.timestamp : Int) →
        getCachedToolList env store name = none)
    ∧ (∀ entry, env.noCache = false →
        store.files (getCacheFilePath name) = some (CacheFile.valid entry) →
        entry.version = CACHE_VERSION →
        (env.now : Int) - (entry.timestamp : Int) ≤ (env.ttlMs : Int) →
        getCachedToolList env store name = some entry.tools) := by
  refine ⟨?_, ?_, ?_, ?_, ?_, ?_⟩
  · intro h
    simp [getCachedToolList, h]
  · intro h
    simp [getCachedToolList, h]
  · intro h
    simp [getCachedToolList, h]
  · intro entry h hv
    simp [getCachedToolList, h, hv]
  · intro entry h hexp
    simp only [getCachedToolList, h]
    rw [if_pos hexp]
    simp
  · intro entry hnc h hv hle
    simp only [getCachedToolList, h, hnc, if_false, Bool.false_eq_true]
    rw [if_neg (by simp [hv]), if_neg (not_lt.mpr hle)]

/-- The shared cache-enabled environment of the cache witnesses. -/
def envOn : CacheEnv := ⟨false, 3600000, 10000000⟩

/-- The shared cache-disabled environment of the cache witnesses. -/
def envOff : CacheEnv := ⟨true, 3600000, 10000000⟩

/-- An empty cache directory. -/
def emptyStore : CacheStore Nat := ⟨fun _ => none⟩

/-- A sample tool descriptor. -/
def demoTool : ToolInfo Nat := ⟨"read_file", some "Reads a file", 0⟩

/-- A cache directory holding a single file for server `srv`. -/
def storeWith (f : CacheFile Nat) : CacheStore Nat :=
  ⟨fun p => if p = getCacheFilePath "srv" then some f else none⟩

/-- Witness for C5: each miss mode, and the hit mode, at concrete inputs. -/
theorem getCachedToolList_silent_miss_witness :
    getCachedToolList envOff emptyStore "srv" = none
    ∧ getCachedToolList envOn emptyStore "srv" = none
    ∧ getCachedToolList envOn (storeWith CacheFile.corrupt) "srv" = none
    ∧ getCachedToolList envOn
        (storeWith (CacheFile.valid ⟨"srv", [demoTool], 9000000, 2⟩)) "srv" = none
    ∧ getCachedToolList envOn
        (storeWith (CacheFile.valid ⟨"srv", [demoTool], 0, 1⟩)) "srv" = none
    ∧ getCachedToolList envOn
        (storeWith (CacheFile.valid ⟨"srv", [demoTool], 9000000, 1⟩)) "srv"
        = some [demoTool] := by
  refine ⟨(getCachedToolList_silent_miss envOff emptyStore "srv").1 rfl,
    (getCachedToolList_silent_miss envOn emptyStore "srv").2.1 rfl,
    (getCachedToolList_silent_miss envOn (storeWith CacheFile.corrupt) "srv").2.2.1
      (by decide),
    (getCachedToolList_silent_miss envOn
        (storeWith (CacheFile.valid ⟨"srv", [demoTool], 9000000, 2⟩)) "srv").2.2.2.1
      ⟨"srv", [demoTool], 9000000, 2⟩ (by decide) (by decide),
    (getCachedToolList_silent_miss envOn
        (storeWith (CacheFile.valid ⟨"srv", [demoTool], 0, 1⟩)) "srv").2.2.2.2.1
      ⟨"srv", [demoTool], 0, 1⟩ (by decide) (by decide),
    (getCachedToolList_silent_miss envOn
        (storeWith (CacheFile.valid ⟨"srv", [demoTool], 9000000, 1⟩)) "srv").2.2.2.2.2
      ⟨"srv", [demoTool], 9000000, 1⟩ rfl (by decide) rfl (by decide)⟩

/-- C6: with caching enabled, `setCachedToolList` followed immediately by
`getCachedToolList` for the same server returns exactly the stored tool list
(the fresh entry carries the current version and a zero age). -/
theorem cache_roundtrip (env : CacheEnv) (store : CacheStore J) (name : String)
    (tools : List (ToolInfo J)) (h : env.noCache = false) :
    getCachedToolList env (setCachedToolList env store name tools) name
      = some tools := by
  have hstore : setCachedToolList env store name tools
      = ⟨fun p => if p = getCacheFilePath name then
          some (CacheFile.valid ⟨name, tools, env.now, CACHE_VERSION⟩)
        else store.files p⟩ := by
    simp [setCachedToolList, h]
  rw [hstore]
  simp [getCachedToolList, h, CACHE_VERSION]

/-- Witness for C6: round-trip at concrete inputs, both for the empty tool
list and for a non-empty one (the name `my srv` exercises sanitization). -/
theorem cache_roundtrip_witness :
    getCachedToolList envOn (setCachedToolList envOn emptyStore "my srv" []) "my srv"
      = some []
    ∧ getCachedToolList envOn (setCachedToolList envOn emptyStore "srv" [demoTool]) "srv"
      = some [demoTool] :=
  ⟨cache_roundtrip envOn emptyStore "my srv" [] rfl,
   cache_roundtrip envOn emptyStore "srv" [demoTool] rfl⟩

end McpCli

namespace McpCli

/-! ## The bounded worker pool (`processWithConcurrency`, list.ts / grep.ts)

```
const results: R[] = new Array(items.length);
let currentIndex = 0;
async function worker(): Promise<void> {
  while (currentIndex < items.length) {
    const index = currentIndex++;
    results[index] = await processor(items[index], index);
  }
}
const workers = Array.from({ length: Math.min(maxConcurrency, items.length) }, () => worker());
await Promise.all(workers);
```

JS is single-threaded and only suspends at `await`, so each worker alternates
between two atomic slices: the loop test plus `currentIndex++` plus the start
of the processor call (one slice), and — after the `await` resumes — the
write into `results[index]` plus the jump back to the loop test (the next
slice).  The pool is therefore a transition system over `PoolState`, driven
by an arbitrary scheduler word listing which worker runs its next slice.
`processor(items[index], index)` is a deterministic value `g index`
(`N = items.length`, `g i = processor(items[i], i)`).  The ghost field
`writes` counts, per result slot, how many times it has been assigned. -/

inductive WorkerState
  | idle
  | busy (idx : Nat)
  | done
deriving DecidableEq

structure PoolState (R : Type) where
  currentIndex : Nat
  results : List (Option R)
  writes : List Nat
  workers : List WorkerState
deriving DecidableEq

/-- One scheduler slice of worker `w` (an out-of-range pick is a stutter). -/
def stepPool (N : Nat) (g : Nat → R) (s : PoolState R) (w : Nat) : PoolState R :=
  match s.workers[w]? with
  | none => s
  | some WorkerState.done => s
  | some WorkerState.idle =>
    if s.currentIndex < N then
      { s with currentIndex := s.currentIndex + 1,
               workers := s.workers.set w (WorkerState.busy s.currentIndex) }
    else
      { s with workers := s.workers.set w WorkerState.done }
  | some (WorkerState.busy i) =>
    { s with results := s.results.set i (some (g i)),
             writes := s.writes.set i (s.writes.getD i 0 + 1),
             workers := s.workers.set w WorkerState.idle }

/-- The initial state of `processWithConcurrency`: an unfilled result array of
length `N`, the shared counter at `0`, and `min maxConcurrency N` workers
about to run their first loop test. -/
def initPool (R : Type) (N limit : Nat) : PoolState R :=
  ⟨0, List.replicate N none, List.replicate N 0,
   List.replicate (min limit N) WorkerState.idle⟩

/-- Run the pool under a scheduler word. -/
def runPool (N : Nat) (g : Nat → R) (limit : Nat) (sched : List Nat) :
    PoolState R :=
  sched.foldl (stepPool N g) (initPool R N limit)

/-- `Promise.all(workers)` has resolved: every worker left its loop. -/
def allDone (s : PoolState R) : Bool :=
  s.workers.all fun st => st = WorkerState.done

/-- The inductive invariant of the pool: indices below the shared counter are
claimed by exactly one worker or already written exactly once with the right
value; indices at or above it are untouched; a worker can only have exited
once the counter passed `N`. -/
structure PoolInv (N : Nat) (g : Nat → R) (W : Nat) (s : PoolState R) : Prop where
  resLen : s.results.length = N
  writesLen : s.writes.length = N
  workersLen : s.workers.length = W
  curLe : s.currentIndex ≤ N
  busyLt : ∀ (w i : Nat), s.workers[w]? = some (WorkerState.busy i) → i < s.currentIndex
  busyInj : ∀ (w w' i : Nat), s.workers[w]? = some (WorkerState.busy i) →
      s.workers[w']? = some (WorkerState.busy i) → w = w'
  claimed : ∀ i, i < s.currentIndex →
      (∃ w : Nat, s.workers[w]? = some (WorkerState.busy i))
      ∨ (s.results[i]? = some (some (g i)) ∧ s.writes[i]? = some 1)
  busyEmpty : ∀ (w i : Nat), s.workers[w]? = some (WorkerState.busy i) →
      s.results[i]? = some none ∧ s.writes[i]? = some 0
  unclaimed : ∀ i, i < N → s.currentIndex ≤ i →
      s.results[i]? = some none ∧ s.writes[i]? = some 0
  doneCur : ∀ (w : Nat), s.workers[w]? = some WorkerState.done → N ≤ s.currentIndex

theorem initPool_inv (R : Type) (N limit : Nat) (g : Nat → R) :
    PoolInv N g (min limit N) (initPool R N limit) :=
  { resLen := by simp [initPool]
    writesLen := by simp [initPool]
    workersLen := by simp [initPool]
    curLe := Nat.zero_le N
    busyLt := by
      intro w i h
      simp only [initPool, List.getElem?_replicate] at h
      split at h <;> simp at h
    busyInj := by
      intro w w' i h h'
      simp only [initPool, List.getElem?_replicate] at h
      split at h <;> simp at h
    claimed := by
      intro i hi
      simp [initPool] at hi
    busyEmpty := by
      intro w i h
      simp only [initPool, List.getElem?_replicate] at h
      split at h <;> simp at h
    unclaimed := by
      intro i hiN _
      simp [initPool, List.getElem?_replicate, hiN]
    doneCur := by
      intro w h
      simp only [initPool, List.getElem?_replicate] at h
      split at h <;> simp at h }

/-- Reading a set cell, for an in-range write. -/
theorem getElem?_set_of_lt {α : Type} (l : List α) (k : Nat) (x : α) (j : Nat)
    (hlt : k < l.length) :
    (l.set k x)[j]? = if k = j then some x else l[j]? := by
  simp [List.getElem?_set, hlt]

/-- A successful indexed read is in range. -/
theorem lt_length_of_getElem?_eq_some {α : Type} {l : List α} {k : Nat} {x : α}
    (h : l[k]? = some x) : k < l.length := by
  by_contra hge
  rw [List.getElem?_eq_none (Nat.le_of_not_lt hge)] at h
  exact Option.noConfusion h

/-- Every scheduler slice preserves the pool invariant. -/
theorem stepPool_inv {R : Type} {N W : Nat} {g : Nat → R} {s : PoolState R}
    (w : Nat) (inv : PoolInv N g W s) : PoolInv N g W (stepPool N g s w) := by
  cases hw : s.workers[w]? with
  | none => simpa [stepPool, hw] using inv
  | some st =>
    have hwlt : w < s.workers.length := lt_length_of_getElem?_eq_some hw
    cases st with
    | done => simpa [stepPool, hw] using inv
    | idle =>
      by_cases hcur : s.currentIndex < N
      · -- the worker claims index `currentIndex` and bumps the counter
        simp only [stepPool, hw, if_pos hcur]
        refine ⟨inv.resLen, inv.writesLen, ?_, ?_, ?_, ?_, ?_, ?_, ?_, ?_⟩ <;> dsimp only
        · rw [List.length_set]; exact inv.workersLen
        · omega
        · intro w' i h
          rw [getElem?_set_of_lt _ _ _ _ hwlt] at h
          by_cases hww : w = w'
          · rw [if_pos hww] at h
            simp at h
            omega
          · rw [if_neg hww] at h
            exact Nat.lt_succ_of_lt (inv.busyLt w' i h)
        · intro w' w'' i h h'
          rw [getElem?_set_of_lt _ _ _ _ hwlt] at h h'
          by_cases h1 : w = w' <;> by_cases h2 : w = w''
          · omega
          · rw [if_pos h1] at h
            rw [if_neg h2] at h'
            simp at h
            have := inv.busyLt w'' i h'
            omega
          · rw [if_neg h1] at h
            rw [if_pos h2] at h'
            simp at h'
            have := inv.busyLt w' i h
            omega
          · rw [if_neg h1] at h
            rw [if_neg h2] at h'
            exact inv.busyInj w' w'' i h h'
        · intro i hi
          by_cases hic : i < s.currentIndex
          · rcases inv.claimed i hic with ⟨w', hw'⟩ | hres
            · refine Or.inl ⟨w', ?_⟩
              rw [getElem?_set_of_lt _ _ _ _ hwlt]
              rw [if_neg ?_]
              · exact hw'
              · intro heq
                rw [← heq] at hw'
                rw [hw] at hw'
                simp at hw'
            · exact Or.inr hres
          · obtain rfl : i = s.currentIndex := by omega
            exact Or.inl ⟨w, by rw [getElem?_set_of_lt _ _ _ _ hwlt, if_pos rfl]⟩
        · intro w' i h
          rw [getElem?_set_of_lt _ _ _ _ hwlt] at h
          by_cases hww : w = w'
          · rw [if_pos hww] at h
            simp at h
            obtain rfl : i = s.currentIndex := by omega
            exact inv.unclaimed _ hcur (le_refl _)
          · rw [if_neg hww] at h
            exact inv.busyEmpty w' i h
        · intro i hiN hle
          exact inv.unclaimed i hiN (by omega)
        · intro w' h
          rw [getElem?_set_of_lt _ _ _ _ hwlt] at h
          by_cases hww : w = w'
          · rw [if_pos hww] at h
            simp at h
          · rw [if_neg hww] at h
            have := inv.doneCur w' h
            omega
      · -- the counter is exhausted: the worker leaves the loop
        simp only [stepPool, hw, if_neg hcur]
        refine ⟨inv.resLen, inv.writesLen, ?_, inv.curLe, ?_, ?_, ?_, ?_, ?_, ?_⟩ <;> dsimp only
        · rw [List.length_set]; exact inv.workersLen
        · intro w' i h
          rw [getElem?_set_of_lt _ _ _ _ hwlt] at h
          by_cases hww : w = w'
          · rw [if_pos hww] at h; simp at h
          · rw [if_neg hww] at h; exact inv.busyLt w' i h
        · intro w' w'' i h h'
          rw [getElem?_set_of_lt _ _ _ _ hwlt] at h h'
          by_cases h1 : w = w'
          · rw [if_pos h1] at h; simp at h
          · rw [if_neg h1] at h
            by_cases h2 : w = w''
            · rw [if_pos h2] at h'; simp at h'
            · rw [if_neg h2] at h'; exact inv.busyInj w' w'' i h h'
        · intro i hi
          rcases inv.claimed i hi with ⟨w', hw'⟩ | hres
          · refine Or.inl ⟨w', ?_⟩
            rw [getElem?_set_of_lt _ _ _ _ hwlt, if_neg ?_]
            · exact hw'
            · intro heq
              rw [← heq] at hw'
              rw [hw] at hw'
              simp at hw'
          · exact Or.inr hres
        · intro w' i h
          rw [getElem?_set_of_lt _ _ _ _ hwlt] at h
          by_cases hww : w = w'
          · rw [if_pos hww] at h; simp at h
          · rw [if_neg hww] at h; exact inv.busyEmpty w' i h
        · exact fun i hiN hle => inv.unclaimed i hiN hle
        · intro w' h
          by_cases hww : w = w'
          · omega
          · rw [getElem?_set_of_lt _ _ _ _ hwlt, if_neg hww] at h
            exact inv.doneCur w' h
    | busy i =>
      -- the worker's processor resolved: write slot `i`, go back to the loop
      have hicur : i < s.currentIndex := inv.busyLt w i hw
      have hiN : i < N := lt_of_lt_of_le hicur inv.curLe
      obtain ⟨hres0, hwr0⟩ := inv.busyEmpty w i hw
      have hgd : s.writes.getD i 0 = 0 := by
        rw [List.getD_eq_getElem?_getD, hwr0]
        rfl
      have hirl : i < s.results.length := by rw [inv.resLen]; omega
      have hiwl : i < s.writes.length := by rw [inv.writesLen]; omega
      simp only [stepPool, hw]
      refine ⟨?_, ?_, ?_, inv.curLe, ?_, ?_, ?_, ?_, ?_, ?_⟩ <;> dsimp only
      · rw [List.length_set]; exact inv.resLen
      · rw [List.length_set]; exact inv.writesLen
      · rw [List.length_set]; exact inv.workersLen
      · intro w' j h
        rw [getElem?_set_of_lt _ _ _ _ hwlt] at h
        by_cases hww : w = w'
        · rw [if_pos hww] at h; simp at h
        · rw [if_neg hww] at h; exact inv.busyLt w' j h
      · intro w' w'' j h h'
        rw [getElem?_set_of_lt _ _ _ _ hwlt] at h h'
        by_cases h1 : w = w'
        · rw [if_pos h1] at h; simp at h
        · rw [if_neg h1] at h
          by_cases h2 : w = w''
          · rw [if_pos h2] at h'; simp at h'
          · rw [if_neg h2] at h'; exact inv.busyInj w' w'' j h h'
      · intro j hj
        rcases inv.claimed j hj with ⟨w', hw'⟩ | hres
        · by_cases hww : w = w'
          · -- that worker is this one: it was busy on `i`, so `j = i`,
            -- and the slot has just been written
            rw [← hww] at hw'
            rw [hw] at hw'
            simp at hw'
            obtain rfl : j = i := by omega
            refine Or.inr ⟨?_, ?_⟩
            · rw [getElem?_set_of_lt _ _ _ _ hirl, if_pos rfl]
            · rw [getElem?_set_of_lt _ _ _ _ hiwl, if_pos rfl, hgd]
          · refine Or.inl ⟨w', ?_⟩
            rw [getElem?_set_of_lt _ _ _ _ hwlt, if_neg hww]
            exact hw'
        · -- already written before this slice: `j ≠ i` since slot `i` was empty
          have hji : ¬ i = j := by
            intro heq
            rw [← heq] at hres
            rw [hres0] at hres
            simp at hres
          refine Or.inr ⟨?_, ?_⟩
          · rw [getElem?_set_of_lt _ _ _ _ hirl, if_neg hji]
            exact hres.1
          · rw [getElem?_set_of_lt _ _ _ _ hiwl, if_neg hji]
            exact hres.2
      · intro w' j h
        rw [getElem?_set_of_lt _ _ _ _ hwlt] at h
        by_cases hww : w = w'
        · rw [if_pos hww] at h; simp at h
        · rw [if_neg hww] at h
          have hji : ¬ i = j := by
            intro heq
            rw [← heq] at h
            exact hww (inv.busyInj w w' i hw h)
          obtain ⟨h1, h2⟩ := inv.busyEmpty w' j h
          constructor
          · rw [getElem?_set_of_lt _ _ _ _ hirl, if_neg hji]
            exact h1
          · rw [getElem?_set_of_lt _ _ _ _ hiwl, if_neg hji]
            exact h2
      · intro j hjN hle
        have hji : ¬ i = j := by omega
        obtain ⟨h1, h2⟩ := inv.unclaimed j hjN hle
        constructor
        · rw [getElem?_set_of_lt _ _ _ _ hirl, if_neg hji]
          exact h1
        · rw [getElem?_set_of_lt _ _ _ _ hiwl, if_neg hji]
          exact h2
      · intro w' h
        rw [getElem?_set_of_lt _ _ _ _ hwlt] at h
        by_cases hww : w = w'
        · rw [if_pos hww] at h; simp at h
        · rw [if_neg hww] at h
          exact inv.doneCur w' h

/-- The invariant holds after any scheduler word. -/
theorem runPool_inv (R : Type) (N : Nat) (g : Nat → R) (limit : Nat)
    (sched : List Nat) : PoolInv N g (min limit N) (runPool N g limit sched) := by
  suffices h : ∀ (s : PoolState R), PoolInv N g (min limit N) s →
      PoolInv N g (min limit N) (sched.foldl (stepPool N g) s) from
    h _ (initPool_inv R N limit g)
  induction sched with
  | nil => exact fun s hs => hs
  | cons a as ih => exact fun s hs => ih _ (stepPool_inv a hs)

/-- C1: for every item count `N ≥ 0`, deterministic worker `g`, concurrency
limit ≥ 1 and scheduler word under which the pool has terminated
(`Promise.all` resolved), `processWithConcurrency`'s result array has length
`N` and slot `i` holds exactly `g i` — the worker's result for item `i` —
regardless of the completion order encoded in the schedule; each slot was
written exactly once (ghost write counter = 1); and a limit ≥ N yields the
very same run as limit = N (the pool size is `min limit N` either way). -/
theorem processWithConcurrency_order_preservation {R : Type} (N : Nat)
    (g : Nat → R) (limit : Nat) (sched : List Nat) (hlim : 1 ≤ limit)
    (hdone : allDone (runPool N g limit sched) = true) :
    (runPool N g limit sched).results = (List.range N).map (fun i => some (g i))
    ∧ (∀ i, i < N → (runPool N g limit sched).writes[i]? = some 1)
    ∧ (N ≤ limit → runPool N g limit sched = runPool N g N sched) := by
  have inv := runPool_inv R N g limit sched
  have hall : ∀ (w : Nat) (st : WorkerState),
      (runPool N g limit sched).workers[w]? = some st → st = WorkerState.done := by
    intro w st hw
    have hmem := List.getElem?_mem hw
    have h2 := List.all_eq_true.mp hdone st hmem
    simpa using h2
  have hcur : N ≤ (runPool N g limit sched).currentIndex := by
    rcases Nat.eq_zero_or_pos N with h0 | hpos
    · omega
    · have hW : 0 < min limit N := lt_min hlim hpos
      have hlen : 0 < (runPool N g limit sched).workers.length := by
        rw [inv.workersLen]; exact hW
      have hst := List.getElem?_eq_getElem hlen
      have hdone0 := hall 0 _ hst
      rw [hdone0] at hst
      exact inv.doneCur 0 hst
  have hslot : ∀ i, i < N →
      (runPool N g limit sched).results[i]? = some (some (g i))
      ∧ (runPool N g limit sched).writes[i]? = some 1 := by
    intro i hi
    rcases inv.claimed i (by omega) with ⟨w, hw⟩ | hres
    · have := hall w _ hw
      simp at this
    · exact hres
  refine ⟨?_, fun i hi => (hslot i hi).2, ?_⟩
  · apply List.ext_getElem?
    intro n
    by_cases hn : n < N
    · rw [(hslot n hn).1, List.getElem?_map, List.getElem?_range hn]
      rfl
    · rw [List.getElem?_eq_none, List.getElem?_eq_none]
      · rw [List.length_map, List.length_range]; omega
      · rw [inv.resLen]; omega
  · intro hNl
    have hmin : min limit N = min N N := by
      rw [Nat.min_eq_right hNl, Nat.min_self]
    simp [runPool, initPool, hmin]

/-- Witness for C1: two items, limit 3, a concrete interleaved schedule in
which worker 1 finishes before worker 0. -/
theorem processWithConcurrency_witness :
    (runPool 2 (fun i => i * 10) 3 [0, 1, 1, 0, 0, 1]).results
      = (List.range 2).map (fun i => some (i * 10))
    ∧ (∀ i, i < 2 →
        (runPool 2 (fun i => i * 10) 3 [0, 1, 1, 0, 0, 1]).writes[i]? = some 1)
    ∧ (2 ≤ 3 → runPool 2 (fun i => i * 10) 3 [0, 1, 1, 0, 0, 1]
        = runPool 2 (fun i => i * 10) 2 [0, 1, 1, 0, 0, 1]) :=
  processWithConcurrency_order_preservation 2 (fun i => i * 10) 3
    [0, 1, 1, 0, 0, 1] (by decide) (by decide)

end McpCli

namespace McpCli

/-! ## The per-server units of the list and grep commands

`fetchServerTools` (list.ts) and `searchServerTools` (grep.ts) are modelled as
functions of a per-server environment — the outcomes of the external effects
they may perform (`getCachedToolList`, `connectToServer` with the config
lookup folded in, `listTools` on the session) — returning their result
together with the trace of effects actually performed, in order.  `safeClose`
never throws, and the `try`/`finally` blocks are translated by the explicit
control flow below. -/

inductive Act
  | getCache
  | connect
  | listTools
  | setCache
  | close
deriving DecidableEq

/-- `ServerWithTools` (list.ts). -/
structure ServerWithTools (J : Type) where
  name : String
  tools : List (ToolInfo J)
  error : Option String
deriving DecidableEq

/-- `SearchResult` (grep.ts). -/
structure SearchResult (J : Type) where
  server : String
  tool : ToolInfo J
deriving DecidableEq

/-- `ServerSearchResult` (grep.ts). -/
structure ServerSearchResult (J : Type) where
  serverName : String
  results : List (SearchResult J)
  error : Option String
deriving DecidableEq

/-- The outcomes of one server's external effects. -/
structure ServerEnv (J : Type) where
  cached : Option (List (ToolInfo J))
  connectRes : Except String Unit
  listToolsRes : Except String (List (ToolInfo J))

/-- `fetchServerTools` (list.ts): connect (config lookup and retries
included), list tools, close best-effort; a failure anywhere becomes an
error-tagged result.  No cache effect appears anywhere in its body. -/
def fetchServerTools (env : ServerEnv J) (serverName : String) :
    ServerWithTools J × List Act :=
  match env.connectRes with
  | Except.error msg => (⟨serverName, [], some msg⟩, [Act.connect])
  | Except.ok _ =>
    match env.listToolsRes with
    | Except.ok tools =>
      (⟨serverName, tools, none⟩, [Act.connect, Act.listTools, Act.close])
    | Except.error msg =>
      (⟨serverName, [], some msg⟩, [Act.connect, Act.listTools, Act.close])

/-- The per-tool match of grep.ts: pattern against the bare name, the
`server/name` path, or the description (an empty description is falsy in JS
and is never tested). -/
def matchesTool (pat : String → Bool) (serverName : String)
    (t : ToolInfo J) : Bool :=
  pat t.name || pat (serverName ++ "/" ++ t.name)
    || (match t.description with
        | some d => decide (d ≠ "") && pat d
        | none => false)

/-- The filtering loop of `searchServerTools`. -/
def filterTools (pat : String → Bool) (serverName : String)
    (tools : List (ToolInfo J)) : List (SearchResult J) :=
  (tools.filter (matchesTool pat serverName)).map fun t => ⟨serverName, t⟩

/-- `searchServerTools` (grep.ts): cache check first; on a hit no connection
at all; on a miss connect, list tools, populate the cache, close, then
filter. -/
def searchServerTools (env : ServerEnv J) (serverName : String)
    (pat : String → Bool) : ServerSearchResult J × List Act :=
  match env.cached with
  | some tools =>
    (⟨serverName, filterTools pat serverName tools, none⟩, [Act.getCache])
  | none =>
    match env.connectRes with
    | Except.error msg =>
      (⟨serverName, [], some msg⟩, [Act.getCache, Act.connect])
    | Except.ok _ =>
      match env.listToolsRes with
      | Except.ok tools =>
        (⟨serverName, filterTools pat serverName tools, none⟩,
         [Act.getCache, Act.connect, Act.listTools, Act.setCache, Act.close])
      | Except.error msg =>
        (⟨serverName, [], some msg⟩,
         [Act.getCache, Act.connect, Act.listTools, Act.close])

/-- The environment of a server whose cache holds a fresh valid entry. -/
def envHit : ServerEnv Nat :=
  ⟨some [demoTool], Except.ok (), Except.ok [demoTool]⟩

/-- C2: at a server whose cache holds a valid entry, the list command's
per-server unit performs no cache lookup at all and connects anyway, whereas
the search flow's unit performs exactly the cache lookup and nothing else —
the list flow does not compose cache-check → connect-on-miss → populate as
the claim (and the repository's own README) states. -/
theorem list_flow_missing_cache :
    (fetchServerTools envHit "srv").2.contains Act.getCache = false
    ∧ (fetchServerTools envHit "srv").2.contains Act.connect = true
    ∧ (fetchServerTools envHit "srv").2.contains Act.setCache = false
    ∧ (searchServerTools envHit "srv" (fun _ => true)).2 = [Act.getCache] := by
  decide

end McpCli

namespace McpCli

/-! ## Sorting of the list command's results

list.ts sorts with `servers.sort((a, b) => a.name.localeCompare(b.name))`.
`localeCompare` is a JS built-in (an external collaborator), modelled here
for ASCII strings after ICU root collation: a primary pass compares the whole
strings with letters case-insensitive (digits before letters, everything else
before digits), and only on a full primary tie a tertiary pass orders
lowercase before uppercase — e.g. `"a" < "B"` and `"ab" < "Aa"`, both the
opposite of code-point order.  The claim's order — case-sensitive code-point
comparison — is `codePointLt` below. -/

/-- Strict code-point lexicographic order (the order the claim asserts). -/
def codePointLtChars : List Char → List Char → Bool
  | [], [] => false
  | [], _ :: _ => true
  | _ :: _, [] => false
  | a :: as, b :: bs =>
    if a < b then true else if b < a then false else codePointLtChars as bs

def codePointLt (s t : String) : Bool :=
  codePointLtChars s.toList t.toList

/-- Primary collation weight of an ASCII character: letters weigh by their
lowercase form (above digits, above the rest); all weights are ≥ 1 so the
`0` separator in `localeKey` sorts below every weight. -/
def primaryKey (c : Char) : Nat :=
  if 'a' ≤ c && c ≤ 'z' then 1024 + c.toNat
  else if 'A' ≤ c && c ≤ 'Z' then 1024 + c.toNat + 32
  else if '0' ≤ c && c ≤ '9' then 512 + c.toNat
  else 1 + c.toNat

/-- Tertiary (case) weight: lowercase before uppercase. -/
def tertiaryKey (c : Char) : Nat :=
  if 'A' ≤ c && c ≤ 'Z' then 2 else 1

/-- Strict lexicographic order on weight lists. -/
def natListLt : List Nat → List Nat → Bool
  | [], [] => false
  | [], _ :: _ => true
  | _ :: _, [] => false
  | a :: as, b :: bs =>
    if a < b then true else if b < a then false else natListLt as bs

/-- The collation key: primary weights, a separator, then tertiary weights —
comparing keys lexicographically compares primaries over the whole string
first and tertiaries only on a primary tie. -/
def localeKey (s : String) : List Nat :=
  (s.toList.map primaryKey) ++ 0 :: (s.toList.map tertiaryKey)

/-- `a.localeCompare(b) <= 0` in the model. -/
def localeLe (s t : String) : Bool :=
  !natListLt (localeKey t) (localeKey s)

theorem natListLt_irrefl : ∀ (l : List Nat), natListLt l l = false
  | [] => rfl
  | a :: as => by
    simp only [natListLt, lt_irrefl, if_false]
    exact natListLt_irrefl as

theorem natListLt_trans : ∀ {a b c : List Nat}, natListLt a b = true →
    natListLt b c = true → natListLt a c = true
  | [], [], _, hab, _ => by simp [natListLt] at hab
  | [], _ :: _, [], _, hbc => by simp [natListLt] at hbc
  | [], _ :: _, _ :: _, _, _ => rfl
  | _ :: _, [], _, hab, _ => by simp [natListLt] at hab
  | _ :: _, _ :: _, [], _, hbc => by simp [natListLt] at hbc
  | x :: xs, y :: ys, z :: zs, hab, hbc => by
    simp only [natListLt] at hab hbc ⊢
    by_cases hxy : x < y
    · by_cases hyz : y < z
      · rw [if_pos (lt_trans hxy hyz)]
      · rw [if_pos hxy] at hab
        by_cases hzy : z < y
        · simp [hyz, hzy] at hbc
        · have hyzeq : y = z := le_antisymm (le_of_not_lt hzy) (le_of_not_lt hyz)
          rw [if_pos (hyzeq ▸ hxy)]
    · by_cases hyx : y < x
      · simp [hxy, hyx] at hab
      · have hxyeq : x = y := le_antisymm (le_of_not_lt hyx) (le_of_not_lt hxy)
        rw [if_neg hxy, if_neg hyx] at hab
        by_cases hyz : y < z
        · rw [if_pos (hxyeq ▸ hyz)]
        · by_cases hzy : z < y
          · simp [hyz, hzy] at hbc
          · rw [if_neg hyz, if_neg hzy] at hbc
            rw [if_neg (hxyeq ▸ hyz), if_neg (hxyeq ▸ hzy)]
            exact natListLt_trans hab hbc

theorem natListLt_eq_of_not : ∀ {a b : List Nat}, natListLt a b = false →
    natListLt b a = false → a = b
  | [], [], _, _ => rfl
  | [], _ :: _, hab, _ => by simp [natListLt] at hab
  | _ :: _, [], _, hba => by simp [natListLt] at hba
  | x :: xs, y :: ys, hab, hba => by
    simp only [natListLt] at hab hba
    by_cases hxy : x < y
    · simp [hxy] at hab
    · by_cases hyx : y < x
      · simp [hyx] at hba
      · have hxyeq : x = y := le_antisymm (le_of_not_lt hyx) (le_of_not_lt hxy)
        rw [if_neg hxy, if_neg hyx] at hab
        rw [if_neg hyx, if_neg hxy] at hba
        rw [hxyeq, natListLt_eq_of_not hab hba]

theorem natListLt_asymm {a b : List Nat} (h : natListLt a b = true) :
    natListLt b a = false := by
  by_contra hc
  simp only [Bool.not_eq_false] at hc
  have h2 := natListLt_trans h hc
  rw [natListLt_irrefl] at h2
  exact Bool.noConfusion h2

/-- `localeLe` is total. -/
theorem localeLe_total (s t : String) :
    localeLe s t = true ∨ localeLe t s = true := by
  unfold localeLe
  simp only [Bool.not_eq_true']
  by_cases h : natListLt (localeKey t) (localeKey s) = true
  · exact Or.inr (natListLt_asymm h)
  · exact Or.inl (by simpa using h)

/-- `localeLe` is transitive. -/
theorem localeLe_trans {s t u : String} (hst : localeLe s t = true)
    (htu : localeLe t u = true) : localeLe s u = true := by
  unfold localeLe at hst htu ⊢
  simp only [Bool.not_eq_true'] at hst htu ⊢
  by_contra hc
  simp only [Bool.not_eq_false] at hc
  by_cases hab : natListLt (localeKey s) (localeKey t) = true
  · have h2 := natListLt_trans hc hab
    rw [htu] at h2
    exact Bool.noConfusion h2
  · simp only [Bool.not_eq_true] at hab
    have heq := natListLt_eq_of_not hab hst
    rw [heq] at hc
    rw [htu] at hc
    exact Bool.noConfusion hc

/-- `listCommand`'s sort: `servers.sort((a, b) => a.name.localeCompare(b.name))`
— JS `Array.prototype.sort` is stable and, under a consistent comparator,
produces the comparator-sorted permutation; modelled as insertion sort. -/
def sortServers (l : List (ServerWithTools J)) : List (ServerWithTools J) :=
  List.insertionSort (fun a b => localeLe a.name b.name = true) l

/-- A server with a lowercase name. -/
def serverLowerA : ServerWithTools Nat := ⟨"a", [demoTool], none⟩

/-- A server with an uppercase name. -/
def serverUpperB : ServerWithTools Nat := ⟨"B", [demoTool], none⟩

/-- C9 counterexample: with servers named `B` and `a`, the code's sort puts
`a` before `B`, yet `"a" < "B"` is false in case-sensitive code-point order
(0x61 > 0x42) — so the output is not ordered by case-sensitive lexicographic
comparison as claimed. -/
theorem listCommand_sort_cex :
    (sortServers [serverUpperB, serverLowerA]).map (fun s => s.name) = ["a", "B"]
    ∧ codePointLt "a" "B" = false := by
  decide

/-- C9 (amended): `listCommand` sorts its aggregated results by server name
under `localeCompare` — locale-aware: primarily case-insensitive, lowercase
before uppercase on a primary tie — not by case-sensitive code-point order:
the rendered sequence is a permutation of the results that is pairwise
non-decreasing under `localeLe`. -/
theorem listCommand_sort_locale {J : Type} (l : List (ServerWithTools J)) :
    (sortServers l).Perm l
    ∧ List.Sorted (fun a b => localeLe a.name b.name = true) (sortServers l) := by
  constructor
  · exact List.perm_insertionSort _ l
  · haveI : IsTotal (ServerWithTools J)
        (fun a b => localeLe a.name b.name = true) :=
      ⟨fun a b => localeLe_total a.name b.name⟩
    haveI : IsTrans (ServerWithTools J)
        (fun a b => localeLe a.name b.name = true) :=
      ⟨fun _ _ _ hab hbc => localeLe_trans hab hbc⟩
    exact List.sorted_insertionSort _ l

end McpCli

namespace McpCli

/-! ## Rendering and failure aggregation of the two command tails

The tails of `listCommand` and `grepCommand` after the worker pool returned,
on the human (non-JSON) output path with an uncolored (non-TTY) stdout.
`console.log` lines are `stdoutLines`, `console.error` lines are
`stderrLines` (the source joins the formatted block with newlines and trims
the trailing blank; the block is kept as its list of lines here). -/

structure CommandOutput where
  stdoutLines : List String
  stderrLines : List String
deriving DecidableEq

/-- JS truthiness of an optional error-message property. -/
def errTruthy : Option String → Bool
  | none => false
  | some s => decide (s ≠ "")

/-- One tool line of `formatServerList` (output.ts); an absent or empty
description is falsy and never printed. -/
def toolLine (withDescriptions : Bool) (t : ToolInfo J) : String :=
  match t.description with
  | some d =>
    if withDescriptions && decide (d ≠ "") then "  • " ++ t.name ++ " - " ++ d
    else "  • " ++ t.name
  | none => "  • " ++ t.name

/-- The lines of `formatServerList` (output.ts): per server its name, its
tool lines, and a blank separator line. -/
def formatServerListLines (withDescriptions : Bool)
    (servers : List (ServerWithTools J)) : List String :=
  (servers.map fun s =>
    s.name :: (s.tools.map (toolLine withDescriptions)) ++ [""]).flatten

/-- `listCommand`'s display conversion: a truthy error replaces the tool list
with a single `<error: …>` pseudo-tool (empty input schema). -/
def displayServer (emptySchema : J) (s : ServerWithTools J) :
    ServerWithTools J :=
  if errTruthy s.error then
    ⟨s.name, [⟨"<error: " ++ s.error.getD "" ++ ">", none, emptySchema⟩], s.error⟩
  else s

/-- The tail of `listCommand`: sort by `localeCompare`, convert errors to
pseudo-tools, render everything to stdout — nothing goes to stderr. -/
def listCommandOutput (emptySchema : J) (withDescriptions : Bool)
    (servers : List (ServerWithTools J)) : CommandOutput :=
  ⟨formatServerListLines withDescriptions
      ((sortServers servers).map (displayServer emptySchema)), []⟩

/-- The failed-server list built by `grepCommand`'s aggregation loop:
the names of the results whose `error` is truthy, in result order. -/
def failedServersOf (serverResults : List (ServerSearchResult J)) :
    List String :=
  (serverResults.filter fun r => errTruthy r.error).map fun r => r.serverName

/-- One line of `formatSearchResults` (output.ts), uncolored. -/
def searchResultLine (withDescriptions : Bool) (r : SearchResult J) : String :=
  let path := r.server ++ "/" ++ r.tool.name
  match r.tool.description with
  | some d =>
    if withDescriptions && decide (d ≠ "") then path ++ " - " ++ d else path
  | none => path

/-- The aggregate warning line of grep.ts. -/
def aggregateWarning (failedServers : List String) : String :=
  "Warning: " ++ toString failedServers.length
    ++ " server(s) failed to connect: " ++ String.intercalate ", " failedServers

/-- The tail of `grepCommand`: flatten all matches in input order, print the
aggregate warning to stderr iff some server failed, then the matches (or the
no-match message) to stdout. -/
def grepCommandOutput (withDescriptions : Bool) (pattern : String)
    (serverResults : List (ServerSearchResult J)) : CommandOutput :=
  let allResults := (serverResults.map fun r => r.results).flatten
  let failedServers := failedServersOf serverResults
  let warn : List String :=
    if 0 < failedServers.length then [aggregateWarning failedServers] else []
  if allResults.length = 0 then
    ⟨["No tools found matching \"" ++ pattern ++ "\""], warn⟩
  else
    ⟨allResults.map (searchResultLine withDescriptions), warn⟩

/-- A server whose connection failed, as the list command's pool reports it. -/
def failedServerDemo : ServerWithTools Nat := ⟨"bad", [], some "connection refused"⟩

/-- A server whose tools were listed successfully. -/
def goodServerDemo : ServerWithTools Nat := ⟨"good", [demoTool], none⟩

/-- C10 counterexample: the list command, run over one successful and one
failed server, writes nothing at all to the diagnostics stream — no aggregate
warning names the failed server (contrary to the claim, which asserts a
warning for every multi-server command). -/
theorem listCommand_no_warning_cex :
    (listCommandOutput (0 : Nat) false
        [goodServerDemo, failedServerDemo]).stderrLines = [] := rfl

/-- C10 (amended): only the grep command prints the one-line aggregate
warning: when at least one server failed its stderr is exactly one line
naming all and only the failed servers, and it is silent otherwise, while
every match from the successful servers is still rendered; the list command
prints no aggregate warning — instead every server, failed or not, appears by
name in its rendered stdout, failed ones carrying an `<error: …>`
pseudo-tool. -/
theorem multi_server_failure_reporting {J : Type} (emptySchema : J)
    (withDescriptions : Bool) (pattern : String)
    (serverResults : List (ServerSearchResult J))
    (servers : List (ServerWithTools J)) :
    (failedServersOf serverResults = [] →
      (grepCommandOutput withDescriptions pattern serverResults).stderrLines = [])
    ∧ (failedServersOf serverResults ≠ [] →
      (grepCommandOutput withDescriptions pattern serverResults).stderrLines
        = [aggregateWarning (failedServersOf serverResults)])
    ∧ (∀ name, name ∈ failedServersOf serverResults ↔
        ∃ r ∈ serverResults, r.serverName = name ∧ errTruthy r.error = true)
    ∧ (listCommandOutput emptySchema withDescriptions servers).stderrLines = []
    ∧ (∀ s ∈ servers, s.name ∈
        (listCommandOutput emptySchema withDescriptions servers).stdoutLines) := by
  refine ⟨?_, ?_, ?_, rfl, ?_⟩
  · intro h
    simp only [grepCommandOutput, h]
    split <;> simp
  · intro h
    have hpos : 0 < (failedServersOf serverResults).length :=
      List.length_pos.mpr h
    simp only [grepCommandOutput, if_pos hpos]
    split <;> rfl
  · intro name
    simp only [failedServersOf, List.mem_map, List.mem_filter]
    constructor
    · rintro ⟨r, ⟨hr, herr⟩, hname⟩
      exact ⟨r, hr, hname, herr⟩
    · rintro ⟨r, hr, hname, herr⟩
      exact ⟨r, ⟨hr, herr⟩, hname⟩
  · intro s hs
    have hs2 : s ∈ sortServers servers :=
      (List.perm_insertionSort _ servers).mem_iff.mpr hs
    have hmem : displayServer emptySchema s
        ∈ (sortServers servers).map (displayServer emptySchema) :=
      List.mem_map_of_mem _ hs2
    have hname : (displayServer emptySchema s).name = s.name := by
      unfold displayServer
      split <;> rfl
    simp only [listCommandOutput, formatServerListLines]
    apply List.mem_flatten.mpr
    refine ⟨(displayServer emptySchema s).name
        :: (((displayServer emptySchema s).tools.map
              (toolLine withDescriptions)) ++ [""]), ?_, ?_⟩
    · exact List.mem_map_of_mem _ hmem
    · rw [hname]
      rw [← hname]
      exact List.mem_cons_self _ _

/-- A successful search result carrying one match. -/
def goodResultDemo : ServerSearchResult Nat := ⟨"good", [⟨"good", demoTool⟩], none⟩

/-- A failed search result. -/
def badResultDemo : ServerSearchResult Nat := ⟨"bad", [], some "connection refused"⟩

/-- Witness for C10's amended theorem: one successful and one failed server;
grep warns about exactly `bad`, list stays silent on stderr. -/
theorem multi_server_failure_reporting_witness :
    (grepCommandOutput false "read*" [goodResultDemo, badResultDemo]).stderrLines
      = ["Warning: 1 server(s) failed to connect: bad"]
    ∧ (listCommandOutput (0 : Nat) false
        [goodServerDemo, failedServerDemo]).stderrLines = []
    ∧ "bad" ∈ failedServersOf [goodResultDemo, badResultDemo] := by
  have h := multi_server_failure_reporting (0 : Nat) false "read*"
    [goodResultDemo, badResultDemo] [goodServerDemo, failedServerDemo]
  refine ⟨?_, h.2.2.2.1, ?_⟩
  · have h2 := h.2.1 (by decide)
    rw [h2]
    decide
  · exact (h.2.2.1 "bad").mpr ⟨badResultDemo, by decide, by decide, by decide⟩

end McpCli
